import Mathlib

/-!
flatten: recursive and iterative flattening of a nested vector.

A shallow embedding of `src/flatten.cpp`.

* `Elem` is one `std::any` element of a `Nested` vector: an `int`, a `Nested`
  vector, or a value of any other type.
* `flatten1` is the recursive flattener (lines 51-75).
* `flatten2` is the iterative flattener (lines 89-145), a loop over an explicit
  state `(nv, i)` with a stack of saved states and the loop counter `count`.
  `nv` is a reference to the caller's vector `arg`, so every assignment to `nv`
  is an assignment to the caller's vector; the embedding returns its final value.
-/

namespace Flatten

/-- One element of a nested vector (a `std::any`): an `int`, a nested vector, or
a value of some other type. -/
inductive Elem where
  | int (v : Int)
  | nested (xs : List Elem)
  | other

/-- `typedef std::vector<std::any> Nested`. -/
abbrev Nested := List Elem

/-- `typedef std::vector<int> Flat`. -/
abbrev Flat := List Int

mutual
/-- Decidable equality of elements. -/
def Elem.decEq : (a b : Elem) → Decidable (a = b)
  | .int v, .int w =>
      if h : v = w then isTrue (by rw [h]) else isFalse (fun e => h (Elem.int.inj e))
  | .nested xs, .nested ys =>
      match Elem.decEqList xs ys with
      | isTrue h => isTrue (by rw [h])
      | isFalse h => isFalse (fun e => h (Elem.nested.inj e))
  | .other, .other => isTrue rfl
  | .int _, .nested _ => isFalse (fun e => Elem.noConfusion e)
  | .int _, .other => isFalse (fun e => Elem.noConfusion e)
  | .nested _, .int _ => isFalse (fun e => Elem.noConfusion e)
  | .nested _, .other => isFalse (fun e => Elem.noConfusion e)
  | .other, .int _ => isFalse (fun e => Elem.noConfusion e)
  | .other, .nested _ => isFalse (fun e => Elem.noConfusion e)
termination_by structural a => a
/-- Decidable equality of nested vectors. -/
def Elem.decEqList : (a b : List Elem) → Decidable (a = b)
  | [], [] => isTrue rfl
  | [], _ :: _ => isFalse (fun e => List.noConfusion e)
  | _ :: _, [] => isFalse (fun e => List.noConfusion e)
  | x :: xs, y :: ys =>
      match Elem.decEq x y with
      | isFalse h => isFalse (fun e => h (List.cons.inj e).1)
      | isTrue h =>
          match Elem.decEqList xs ys with
          | isTrue h2 => isTrue (by rw [h, h2])
          | isFalse h2 => isFalse (fun e => h2 (List.cons.inj e).2)
termination_by structural a => a
end

instance : DecidableEq Elem := Elem.decEq

/-! flatten1 (lines 51-75) -/

mutual
/-- The body of the range-for loop of `flatten1` (lines 55-72) on one element,
threading the local `valid` and the output vector `flat`. The call
`flatten1(std::any_cast<Nested>(element), flat)` of line 63 is the loop over the
nested vector started with a fresh `valid = true`. -/
def flatten1.body : Elem → Bool → Flat → Bool × Flat
  | .int v, valid, flat => (valid, flat ++ [v])
  | .nested g, valid, flat =>
      let r := flatten1.loop g true flat
      (if r.1 = false then false else valid, r.2)
  | .other, _, flat => (false, flat)
termination_by structural e => e
/-- The range-for loop of `flatten1` (line 54) over the remaining elements. -/
def flatten1.loop : List Elem → Bool → Flat → Bool × Flat
  | [], valid, flat => (valid, flat)
  | e :: rest, valid, flat =>
      let s := flatten1.body e valid flat
      flatten1.loop rest s.1 s.2
termination_by structural xs => xs
end

/-- `bool flatten1(const Nested& nested_vector, Flat& flat)`: the returned flag
and the final content of `flat`. -/
def flatten1 (nested_vector : Nested) (flat : Flat) : Bool × Flat :=
  flatten1.loop nested_vector true flat

/-! flatten2 (lines 89-145) -/

/-- The variables of `flatten2`. `nv` is the reference `Nested& nv = arg`, i.e.
the caller's vector itself. -/
structure State2 where
  nv : Nested
  i : Nat
  state_stack : List (Nested × Nat)
  flat : Flat
  valid : Bool
  count : Nat
  deriving DecidableEq

/-- The loop condition of line 104. -/
def State2.cond (s : State2) : Bool :=
  decide (s.i < s.nv.length) || !s.state_stack.isEmpty

/-- The loop body, lines 106-137. `none` stands for `nv.at(i)` throwing
`std::out_of_range` or for `top()`/`pop()` on an empty stack. -/
def State2.body (s : State2) : Option State2 :=
  if s.i < s.nv.length then
    match s.nv[s.i]? with
    | some (.int v) => some { s with flat := s.flat ++ [v], i := s.i + 1 }
    | some (.nested g) =>
        some { s with state_stack := (s.nv, s.i) :: s.state_stack, nv := g, i := 0 }
    | some .other => some { s with valid := false, i := s.i + 1 }
    | none => none
  else
    match s.state_stack with
    | (nv0, i0) :: rest => some { s with state_stack := rest, nv := nv0, i := i0 + 1 }
    | [] => none

/-- The `while` loop of lines 104-142, including `if (++count == 100) break;`.
The first argument bounds the number of iterations still allowed; `none` is
returned when it runs out or when the body fails. -/
def State2.loop : Nat → State2 → Option State2
  | 0, _ => none
  | n + 1, s =>
      if s.cond then
        match s.body with
        | none => none
        | some s1 =>
            let s2 := { s1 with count := s1.count + 1 }
            if s2.count = 100 then some s2 else State2.loop n s2
      else some s

/-- The state of `flatten2` on entry (lines 90-101). -/
def State2.init (arg : Nested) (flat : Flat) : State2 :=
  { nv := arg, i := 0, state_stack := [], flat := flat, valid := true, count := 0 }

/-- The final state of `flatten2`; 100 iterations are all the counter allows. -/
def flatten2.run (arg : Nested) (flat : Flat) : Option State2 :=
  State2.loop 100 (State2.init arg flat)

/-- What the caller observes after `flatten2(arg, flat)`. -/
structure Out2 where
  valid : Bool
  flat : Flat
  arg : Nested
  deriving DecidableEq

/-- `bool flatten2(Nested& arg, Flat& flat)`: the returned flag, the final
content of `flat` and the final content of the caller's vector `arg`. -/
def flatten2 (arg : Nested) (flat : Flat) : Option Out2 :=
  (flatten2.run arg flat).map fun s => { valid := s.valid, flat := s.flat, arg := s.nv }

/-! The driver's sample data (lines 156-199) -/

/-- The vector `a` built by `main`. -/
def sample : Nested :=
  let empty : Nested := []
  let h : Nested := [.int 305, .int 306]
  let f : Nested := [.int 203, .int 204, .nested h]
  let b : Nested := [.int 102, .nested f, .int 107]
  let c : Nested := [.int 108, .int 109]
  let g : Nested := [.int 211]
  let d : Nested := [.nested g]
  let e : Nested := [.int 112]
  [.nested empty, .int 1, .nested b, .nested c, .int 10, .nested d, .nested e, .int 13,
    .nested empty]

/-- A root vector holding the integers `0, 1, ..., n-1` as top-level leaves. -/
def ints (n : Nat) : Nested :=
  (List.range n).map fun k => Elem.int (Int.ofNat k)

/-- The state after exactly `k` iterations of the `while` loop of `flatten2`
started in `s` at the loop head; `none` when the loop runs fewer than `k`
iterations (the condition fails, the counter reached 100, or the body fails). -/
def State2.after : Nat → State2 → Option State2
  | 0, s => some s
  | k + 1, s =>
      if s.cond = true ∧ s.count ≠ 100 then
        match s.body with
        | none => none
        | some s1 => State2.after k { s1 with count := s1.count + 1 }
      else none

/-- Two calls of `flatten2` in succession on the same vector variable, each with
a fresh empty output; the second call sees the vector as the first left it. -/
def flatten2.twice (arg : Nested) : Option (Out2 × Out2) :=
  match flatten2 arg [] with
  | none => none
  | some o1 =>
      match flatten2 o1.arg [] with
      | none => none
      | some o2 => some (o1, o2)

/-- Two calls of `flatten1` in succession on the same vector, each with a fresh
empty output; the argument is `const`, so both calls see the same vector. -/
def flatten1.twice (nested_vector : Nested) : (Bool × Flat) × (Bool × Flat) :=
  (flatten1 nested_vector [], flatten1 nested_vector [])

/-! Specification-side definitions -/

mutual
/-- Specification: the leaves contributed by one element, depth first and left to
right; a malformed element contributes nothing. -/
def leavesElem : Elem → List Int
  | .int v => [v]
  | .nested g => leaves g
  | .other => []
termination_by structural e => e
/-- Specification: the depth-first, left-to-right concatenation of all integer
leaves reachable from the root. -/
def leaves : List Elem → List Int
  | [] => []
  | e :: rest => leavesElem e ++ leaves rest
termination_by structural xs => xs
end

mutual
/-- Specification: the element is an integer or a group without malformed
elements at any depth. -/
def wellFormedElem : Elem → Bool
  | .int _ => true
  | .nested g => wellFormed g
  | .other => false
termination_by structural e => e
/-- Specification: no malformed element (neither integer nor nested group)
occurs anywhere in the vector, at any depth. -/
def wellFormed : List Elem → Bool
  | [] => true
  | e :: rest => wellFormedElem e && wellFormed rest
termination_by structural xs => xs
end


/-- Every vector the state holds (current and saved) is well formed. -/
def State2.WellFormed (s : State2) : Prop :=
  wellFormed s.nv = true ∧ ∀ p ∈ s.state_stack, wellFormed p.1 = true

/-- The value that wraps the single leaf `v` in 5 levels of groups, the root
vector being the outermost one. -/
def deep5 (v : Int) : Nested :=
  [.nested [.nested [.nested [.nested [.int v]]]]]

/-- The vector `[[] 1 [[]] 2]`. -/
def emptyGroups : Nested :=
  [.nested [], .int 1, .nested [.nested []], .int 2]

mutual
/-- Specification: the number of integer leaves in one element, at any depth. -/
def countLeavesElem : Elem → Nat
  | .int _ => 1
  | .nested g => countLeaves g
  | .other => 0
termination_by structural e => e
/-- Specification: the number of integer leaves in the vector, at any depth. -/
def countLeaves : List Elem → Nat
  | [] => 0
  | e :: rest => countLeavesElem e + countLeaves rest
termination_by structural xs => xs
end

mutual
/-- Specification: the number of malformed elements in one element, at any depth. -/
def countMalformedElem : Elem → Nat
  | .int _ => 0
  | .nested g => countMalformed g
  | .other => 1
termination_by structural e => e
/-- Specification: the number of malformed elements in the vector, at any depth. -/
def countMalformed : List Elem → Nat
  | [] => 0
  | e :: rest => countMalformedElem e + countMalformed rest
termination_by structural xs => xs
end

mutual
/-- Specification: the number of groups in one element, the element itself
included when it is a group. -/
def countGroupsElem : Elem → Nat
  | .int _ => 0
  | .nested g => 1 + countGroups g
  | .other => 0
termination_by structural e => e
/-- Specification: the number of nested groups in the vector, at any depth, the
vector itself (the root) not counted. -/
def countGroups : List Elem → Nat
  | [] => 0
  | e :: rest => countGroupsElem e + countGroups rest
termination_by structural xs => xs
end

/-- Specification: leaves, plus malformed elements, plus twice the nested groups. -/
def cost (t : List Elem) : Nat :=
  countLeaves t + countMalformed t + 2 * countGroups t

mutual
/-- Specification: the element is a group that holds no integer leaf and no
malformed element at any depth. -/
def groupsOnlyElem : Elem → Bool
  | .int _ => false
  | .nested g => groupsOnly g
  | .other => false
termination_by structural e => e
/-- Specification: the vector holds no integer leaf and no malformed element at
any depth (it is empty, or a nesting of groups that are ultimately empty). -/
def groupsOnly : List Elem → Bool
  | [] => true
  | e :: rest => groupsOnlyElem e && groupsOnly rest
termination_by structural xs => xs
end

/-- The leaves still to be emitted on behalf of the saved states: for a saved
`(g, j)`, those of the elements of `g` after index `j`. -/
def stackLeaves : List (Nested × Nat) → List Int
  | [] => []
  | p :: rest => leaves (p.1.drop (p.2 + 1)) ++ stackLeaves rest

/-- Whether what the saved states still have to scan is well formed. -/
def stackWf : List (Nested × Nat) → Bool
  | [] => true
  | p :: rest => wellFormed (p.1.drop (p.2 + 1)) && stackWf rest

/-- The loop iterations the saved states still need: one pop each, plus the scan
of the elements after the saved index. -/
def stackWork : List (Nested × Nat) → Nat
  | [] => 0
  | p :: rest => 1 + cost (p.1.drop (p.2 + 1)) + stackWork rest

/-- The vector at the bottom of the saved states, or the current one when
nothing is saved. -/
def stackRoot : Nested → List (Nested × Nat) → Nested
  | nv, [] => nv
  | _, p :: rest => stackRoot p.1 rest

/-- The leaves the loop has still to emit from state `s`. -/
def State2.pendingLeaves (s : State2) : List Int :=
  leaves (s.nv.drop s.i) ++ stackLeaves s.state_stack

/-- Whether everything the loop has still to scan from state `s` is well formed. -/
def State2.pendingWf (s : State2) : Bool :=
  wellFormed (s.nv.drop s.i) && stackWf s.state_stack

/-- The number of loop iterations still needed from state `s`. -/
def State2.work (s : State2) : Nat :=
  cost (s.nv.drop s.i) + stackWork s.state_stack

/-- The vector the traversal started from, as the state remembers it. -/
def State2.root (s : State2) : Nested :=
  stackRoot s.nv s.state_stack

/-- Every saved state `(g, j)` points at a nested group: `j < size(g)` and the
`j`-th element of `g` is a `Nested`. -/
def State2.StackOk (s : State2) : Prop :=
  ∀ p ∈ s.state_stack, p.2 < p.1.length ∧ ∃ g, p.1[p.2]? = some (Elem.nested g)

/-- The state `s` with `flat0` put in front of its output vector. -/
def State2.prepend (flat0 : Flat) (s : State2) : State2 :=
  { s with flat := flat0 ++ s.flat }

/-! flatten1 against the specification -/

mutual
/-- One pass of the loop body of `flatten1` appends the leaves of the element
and keeps `valid` exactly when the element is well formed. -/
theorem flatten1_body_spec : ∀ (e : Elem) (valid : Bool) (flat : Flat),
    flatten1.body e valid flat = (valid && wellFormedElem e, flat ++ leavesElem e)
  | .int v, valid, flat => by simp [flatten1.body, wellFormedElem, leavesElem]
  | .nested g, valid, flat => by
      have ih := flatten1_loop_spec g true flat
      simp only [flatten1.body, ih, wellFormedElem, leavesElem]
      cases valid <;> cases wellFormed g <;> simp
  | .other, valid, flat => by simp [flatten1.body, wellFormedElem, leavesElem]
/-- The loop of `flatten1` appends the leaves of the remaining elements and
keeps `valid` exactly when all of them are well formed. -/
theorem flatten1_loop_spec : ∀ (xs : List Elem) (valid : Bool) (flat : Flat),
    flatten1.loop xs valid flat = (valid && wellFormed xs, flat ++ leaves xs)
  | [], valid, flat => by simp [flatten1.loop, wellFormed, leaves]
  | e :: rest, valid, flat => by
      have h1 := flatten1_body_spec e valid flat
      have h2 := flatten1_loop_spec rest (valid && wellFormedElem e) (flat ++ leavesElem e)
      simp only [flatten1.loop, h1, h2, wellFormed, leaves, Bool.and_assoc, List.append_assoc]
end

/-- The result of `flatten1` in closed form. -/
theorem flatten1_spec (t : Nested) (flat : Flat) :
    flatten1 t flat = (wellFormed t, flat ++ leaves t) := by
  simp [flatten1, flatten1_loop_spec]


/-! flatten2: the loop returns, and keeps `valid` on well-formed input -/

/-- Every element of a well-formed vector is well formed. -/
theorem wellFormed_getElem? : ∀ (xs : List Elem) (i : Nat) (e : Elem),
    wellFormed xs = true → xs[i]? = some e → wellFormedElem e = true
  | [], i, e, _, h => by simp at h
  | x :: rest, 0, e, hw, h => by
      simp [wellFormed] at hw
      simp at h
      rw [← h]; exact hw.1
  | x :: rest, i + 1, e, hw, h => by
      simp [wellFormed] at hw
      simp at h
      exact wellFormed_getElem? rest i e hw.2 h

/-- Under the loop condition the body does not fail: the access `nv.at(i)` is
guarded by `i < nv.size()` and the pop by a non-empty stack. -/
theorem State2.body_isSome (s : State2) (hc : s.cond = true) :
    ∃ s1, s.body = some s1 := by
  unfold State2.body
  by_cases hi : s.i < s.nv.length
  · rw [if_pos hi, List.getElem?_eq_getElem hi]
    cases s.nv[s.i] <;> simp
  · rw [if_neg hi]
    cases hs : s.state_stack with
    | nil => simp [State2.cond, hi, hs] at hc
    | cons p rest => exact ⟨_, rfl⟩

/-- The body leaves the loop counter alone. -/
theorem State2.body_count (s s1 : State2) (h : s.body = some s1) : s1.count = s.count := by
  unfold State2.body at h
  split at h
  · split at h <;> simp at h
    all_goals (subst h; rfl)
  · split at h <;> simp at h
    subst h; rfl

/-- With `n` iterations allowed and the counter at `100 - n`, the loop returns. -/
theorem State2.loop_isSome : ∀ (n : Nat) (s : State2), 0 < n → s.count + n = 100 →
    ∃ s1, State2.loop n s = some s1
  | 0, _, h, _ => absurd h (Nat.lt_irrefl 0)
  | n + 1, s, _, hn => by
      unfold State2.loop
      by_cases hc : s.cond = true
      · obtain ⟨s1, hb⟩ := State2.body_isSome s hc
        have hcount := State2.body_count s s1 hb
        simp only [hc, if_true, hb]
        by_cases h100 : s1.count + 1 = 100
        · simp [h100]
        · simp only [h100, if_false]
          apply State2.loop_isSome n
          · show 0 < n
            omega
          · show s1.count + 1 + n = 100
            omega
      · simp [hc]

/-- `flatten2` returns for every input. -/
theorem flatten2_isSome (arg : Nested) (flat : Flat) : ∃ o, flatten2 arg flat = some o := by
  obtain ⟨s, hs⟩ := State2.loop_isSome 100 (State2.init arg flat) (by decide) rfl
  exact ⟨{ valid := s.valid, flat := s.flat, arg := s.nv }, by simp [flatten2, flatten2.run, hs]⟩

/-- On well-formed vectors the body keeps them well formed and keeps `valid`. -/
theorem State2.body_wellFormed (s s1 : State2) (hw : s.WellFormed) (hv : s.valid = true)
    (h : s.body = some s1) : s1.WellFormed ∧ s1.valid = true := by
  unfold State2.body at h
  split at h
  · split at h
    · simp at h; subst h; exact ⟨hw, hv⟩
    · next g hg =>
      simp at h; subst h
      refine ⟨⟨?_, ?_⟩, hv⟩
      · have := wellFormed_getElem? s.nv s.i _ hw.1 hg
        simpa [wellFormedElem] using this
      · intro p hp
        simp at hp
        rcases hp with hp | hp
        · rw [hp]; exact hw.1
        · exact hw.2 p hp
    · next hg =>
      have := wellFormed_getElem? s.nv s.i _ hw.1 hg
      simp [wellFormedElem] at this
    · simp at h
  · split at h
    · next nv0 i0 rest hs =>
      simp at h; subst h
      refine ⟨⟨?_, ?_⟩, hv⟩
      · exact hw.2 (nv0, i0) (by simp [hs])
      · intro p hp
        exact hw.2 p (by simp [hs, hp])
    · simp at h

/-- On well-formed vectors the loop never clears `valid`. -/
theorem State2.loop_valid : ∀ (n : Nat) (s s1 : State2), s.WellFormed → s.valid = true →
    State2.loop n s = some s1 → s1.valid = true
  | 0, _, _, _, _, h => by simp [State2.loop] at h
  | n + 1, s, s1, hw, hv, h => by
      unfold State2.loop at h
      by_cases hc : s.cond = true
      · simp only [hc, if_true] at h
        cases hb : s.body with
        | none => simp [hb] at h
        | some s2 =>
          obtain ⟨hw2, hv2⟩ := State2.body_wellFormed s s2 hw hv hb
          simp only [hb] at h
          by_cases h100 : s2.count + 1 = 100
          · simp [h100] at h
            rw [← h]; exact hv2
          · simp only [h100, if_false] at h
            exact State2.loop_valid n { s2 with count := s2.count + 1 } s1 hw2 hv2 h
      · simp [hc] at h
        rw [← h]; exact hv

/-! flatten2: one loop iteration, case by case -/

/-- The element at an index heads what remains of the vector from that index. -/
theorem drop_of_getElem? (xs : List Elem) (i : Nat) (e : Elem) (h : xs[i]? = some e) :
    xs.drop i = e :: xs.drop (i + 1) := by
  obtain ⟨hi, he⟩ := List.getElem?_eq_some.mp h
  rw [List.drop_eq_getElem_cons hi, he]

/-- The four ways the loop body ends: an `int` copied, a descent into a nested
vector, an element of another type skipped, or a pop. -/
theorem State2.body_cases (s s1 : State2) (h : s.body = some s1) :
    (∃ v, s.nv.drop s.i = Elem.int v :: s.nv.drop (s.i + 1) ∧
      s1 = { s with flat := s.flat ++ [v], i := s.i + 1 }) ∨
    (∃ g, s.nv.drop s.i = Elem.nested g :: s.nv.drop (s.i + 1) ∧
      s.nv[s.i]? = some (Elem.nested g) ∧ s.i < s.nv.length ∧
      s1 = { s with state_stack := (s.nv, s.i) :: s.state_stack, nv := g, i := 0 }) ∨
    (s.nv.drop s.i = Elem.other :: s.nv.drop (s.i + 1) ∧
      s1 = { s with valid := false, i := s.i + 1 }) ∨
    (s.nv.drop s.i = [] ∧ ∃ nv0 i0 rest, s.state_stack = (nv0, i0) :: rest ∧
      s1 = { s with state_stack := rest, nv := nv0, i := i0 + 1 }) := by
  unfold State2.body at h
  split at h
  · next hi =>
    split at h
    · next v hv =>
      simp at h
      exact Or.inl ⟨v, drop_of_getElem? _ _ _ hv, h.symm⟩
    · next g hg =>
      simp at h
      exact Or.inr (Or.inl ⟨g, drop_of_getElem? _ _ _ hg, hg, hi, h.symm⟩)
    · next ho =>
      simp at h
      exact Or.inr (Or.inr (Or.inl ⟨drop_of_getElem? _ _ _ ho, h.symm⟩))
    · simp at h
  · next hi =>
    split at h
    · next nv0 i0 rest hs =>
      simp at h
      exact Or.inr (Or.inr (Or.inr
        ⟨List.drop_eq_nil_of_le (Nat.le_of_not_lt hi), nv0, i0, rest, hs, h.symm⟩))
    · simp at h

/-- The cost of a vector, element by element. -/
theorem cost_cons_int (v : Int) (rest : List Elem) :
    cost (Elem.int v :: rest) = 1 + cost rest := by
  simp [cost, countLeaves, countMalformed, countGroups, countLeavesElem, countMalformedElem,
    countGroupsElem]
  omega

/-- A nested group costs its content plus the descent and the pop. -/
theorem cost_cons_nested (g rest : List Elem) :
    cost (Elem.nested g :: rest) = 2 + cost g + cost rest := by
  simp [cost, countLeaves, countMalformed, countGroups, countLeavesElem, countMalformedElem,
    countGroupsElem]
  omega

/-- A malformed element costs one iteration. -/
theorem cost_cons_other (rest : List Elem) :
    cost (Elem.other :: rest) = 1 + cost rest := by
  simp [cost, countLeaves, countMalformed, countGroups, countLeavesElem, countMalformedElem,
    countGroupsElem]
  omega

/-- Only the empty vector costs nothing. -/
theorem cost_eq_zero (xs : List Elem) (h : cost xs = 0) : xs = [] := by
  cases xs with
  | nil => rfl
  | cons e rest =>
    cases e with
    | int v => rw [cost_cons_int] at h; omega
    | nested g => rw [cost_cons_nested] at h; omega
    | other => rw [cost_cons_other] at h; omega

/-- The body preserves the output together with the leaves still to be emitted. -/
theorem State2.body_leaves (s s1 : State2) (h : s.body = some s1) :
    s1.flat ++ s1.pendingLeaves = s.flat ++ s.pendingLeaves := by
  rcases State2.body_cases s s1 h with ⟨v, hd, rfl⟩ | ⟨g, hd, _, _, rfl⟩ | ⟨hd, rfl⟩ |
    ⟨hd, nv0, i0, rest, hs, rfl⟩
  · simp [State2.pendingLeaves, hd, leaves, leavesElem]
  · simp [State2.pendingLeaves, hd, leaves, leavesElem, stackLeaves]
  · simp [State2.pendingLeaves, hd, leaves, leavesElem]
  · simp [State2.pendingLeaves, hd, hs, leaves, stackLeaves]

/-- The body preserves `valid` together with the well-formedness still to be
checked. -/
theorem State2.body_wf (s s1 : State2) (h : s.body = some s1) :
    (s1.valid && s1.pendingWf) = (s.valid && s.pendingWf) := by
  rcases State2.body_cases s s1 h with ⟨v, hd, rfl⟩ | ⟨g, hd, _, _, rfl⟩ | ⟨hd, rfl⟩ |
    ⟨hd, nv0, i0, rest, hs, rfl⟩
  · simp [State2.pendingWf, hd, wellFormed, wellFormedElem]
  · simp [State2.pendingWf, hd, wellFormed, wellFormedElem, stackWf, Bool.and_assoc]
  · simp [State2.pendingWf, hd, wellFormed, wellFormedElem]
  · simp [State2.pendingWf, hd, hs, wellFormed, stackWf]

/-- Every pass of the body uses up exactly one of the iterations still needed. -/
theorem State2.body_work (s s1 : State2) (h : s.body = some s1) :
    s1.work + 1 = s.work := by
  rcases State2.body_cases s s1 h with ⟨v, hd, rfl⟩ | ⟨g, hd, _, _, rfl⟩ | ⟨hd, rfl⟩ |
    ⟨hd, nv0, i0, rest, hs, rfl⟩
  · simp only [State2.work, hd, cost_cons_int]; omega
  · simp only [State2.work, hd, cost_cons_nested, stackWork, List.drop_zero]; omega
  · simp only [State2.work, hd, cost_cons_other]; omega
  · simp only [State2.work, hd, hs, stackWork]
    simp [cost, countLeaves, countMalformed, countGroups]
    omega

/-- The body does not change the vector the traversal started from. -/
theorem State2.body_root (s s1 : State2) (h : s.body = some s1) : s1.root = s.root := by
  rcases State2.body_cases s s1 h with ⟨v, hd, rfl⟩ | ⟨g, hd, _, _, rfl⟩ | ⟨hd, rfl⟩ |
    ⟨hd, nv0, i0, rest, hs, rfl⟩
  · rfl
  · rfl
  · rfl
  · simp [State2.root, hs, stackRoot]

/-- The body appends at most one integer. -/
theorem State2.body_flat_length (s s1 : State2) (h : s.body = some s1) :
    s1.flat.length ≤ s.flat.length + 1 := by
  rcases State2.body_cases s s1 h with ⟨v, hd, rfl⟩ | ⟨g, hd, _, _, rfl⟩ | ⟨hd, rfl⟩ |
    ⟨hd, nv0, i0, rest, hs, rfl⟩ <;> simp

/-- The body keeps every saved state pointing at a nested group. -/
theorem State2.body_stackOk (s s1 : State2) (hk : s.StackOk) (h : s.body = some s1) :
    s1.StackOk := by
  rcases State2.body_cases s s1 h with ⟨v, hd, rfl⟩ | ⟨g, hd, hg, hi, rfl⟩ | ⟨hd, rfl⟩ |
    ⟨hd, nv0, i0, rest, hs, rfl⟩
  · exact hk
  · intro p hp
    simp at hp
    rcases hp with rfl | hp
    · exact ⟨hi, g, hg⟩
    · exact hk p hp
  · exact hk
  · intro p hp
    exact hk p (by simp [hs, hp])

/-- The loop condition holds exactly while iterations are still needed. -/
theorem State2.cond_iff_work (s : State2) : s.cond = true ↔ s.work ≠ 0 := by
  constructor
  · intro hc hw
    simp only [State2.work] at hw
    have h1 : s.nv.drop s.i = [] := cost_eq_zero _ (by omega)
    have h2 : stackWork s.state_stack = 0 := by omega
    have h3 : s.nv.length ≤ s.i := List.drop_eq_nil_iff.mp h1
    cases hs : s.state_stack with
    | nil => simp [State2.cond, hs, Nat.not_lt.mpr h3] at hc
    | cons p rest => rw [hs] at h2; simp [stackWork] at h2
  · intro hw
    by_contra hc
    simp [State2.cond] at hc
    apply hw
    have h1 : s.nv.drop s.i = [] := List.drop_eq_nil_of_le hc.1
    simp [State2.work, h1, hc.2, stackWork, cost, countLeaves, countMalformed, countGroups]

/-! flatten2: the whole loop -/

/-- A property of the loop-head state that every iteration preserves holds of the
state the loop returns. -/
theorem State2.loop_invariant (P : State2 → Prop)
    (hstep : ∀ s s1, s.cond = true → P s → s.body = some s1 →
      P { s1 with count := s1.count + 1 }) :
    ∀ (n : Nat) (s s1 : State2), P s → State2.loop n s = some s1 → P s1
  | 0, _, _, _, h => by simp [State2.loop] at h
  | n + 1, s, s1, hp, h => by
      unfold State2.loop at h
      by_cases hc : s.cond = true
      · simp only [hc, if_true] at h
        cases hb : s.body with
        | none => simp [hb] at h
        | some s2 =>
          have hp2 := hstep s s2 hc hp hb
          simp only [hb] at h
          by_cases h100 : s2.count + 1 = 100
          · rw [if_pos h100] at h
            rw [← Option.some.inj h]; exact hp2
          · simp only [h100, if_false] at h
            exact State2.loop_invariant P hstep n { s2 with count := s2.count + 1 } s1 hp2 h
      · simp [hc] at h
        rw [← h]; exact hp

/-- The loop is left because its condition fails or because the counter is 100. -/
theorem State2.loop_exit : ∀ (n : Nat) (s s1 : State2), State2.loop n s = some s1 →
    s1.cond = false ∨ s1.count = 100
  | 0, _, _, h => by simp [State2.loop] at h
  | n + 1, s, s1, h => by
      unfold State2.loop at h
      by_cases hc : s.cond = true
      · simp only [hc, if_true] at h
        cases hb : s.body with
        | none => simp [hb] at h
        | some s2 =>
          simp only [hb] at h
          by_cases h100 : s2.count + 1 = 100
          · rw [if_pos h100] at h
            rw [← Option.some.inj h]; exact Or.inr h100
          · simp only [h100, if_false] at h
            exact State2.loop_exit n _ s1 h
      · simp [hc] at h
        rw [← h]; exact Or.inl (by simpa using hc)

/-- The counter never passes 100. -/
theorem State2.loop_count_le : ∀ (n : Nat) (s s1 : State2), s.count + n = 100 →
    State2.loop n s = some s1 → s1.count ≤ 100
  | 0, _, _, _, h => by simp [State2.loop] at h
  | n + 1, s, s1, hn, h => by
      unfold State2.loop at h
      by_cases hc : s.cond = true
      · simp only [hc, if_true] at h
        cases hb : s.body with
        | none => simp [hb] at h
        | some s2 =>
          have hcount := State2.body_count s s2 hb
          simp only [hb] at h
          by_cases h100 : s2.count + 1 = 100
          · rw [if_pos h100] at h
            rw [← Option.some.inj h]; exact Nat.le_of_eq h100
          · simp only [h100, if_false] at h
            exact State2.loop_count_le n { s2 with count := s2.count + 1 } s1
              (by show s2.count + 1 + n = 100; omega) h
      · simp [hc] at h
        rw [← h]; omega

/-- The state the loop returns is the loop-head state after some number of
iterations. -/
theorem State2.loop_after : ∀ (n : Nat) (s s1 : State2), s.count + n = 100 →
    State2.loop n s = some s1 → ∃ k, k ≤ n ∧ State2.after k s = some s1
  | 0, _, _, _, h => by simp [State2.loop] at h
  | n + 1, s, s1, hn, h => by
      unfold State2.loop at h
      by_cases hc : s.cond = true
      · simp only [hc, if_true] at h
        have hne : s.count ≠ 100 := by omega
        cases hb : s.body with
        | none => simp [hb] at h
        | some s2 =>
          have hcount := State2.body_count s s2 hb
          simp only [hb] at h
          by_cases h100 : s2.count + 1 = 100
          · rw [if_pos h100] at h
            refine ⟨1, by omega, ?_⟩
            simp only [State2.after, hc, hne, hb, ne_eq, not_false_eq_true, and_self, if_true]
            exact h
          · simp only [h100, if_false] at h
            obtain ⟨k, hk, ha⟩ := State2.loop_after n { s2 with count := s2.count + 1 } s1
              (by show s2.count + 1 + n = 100; omega) h
            refine ⟨k + 1, by omega, ?_⟩
            simp [State2.after, hc, hne, hb, ha]
      · simp [hc] at h
        exact ⟨0, by omega, by simp [State2.after, h]⟩

/-- A property of the loop-head state that every iteration preserves holds after
any number of iterations. -/
theorem State2.after_invariant (P : State2 → Prop)
    (hstep : ∀ s s1, s.cond = true → P s → s.body = some s1 →
      P { s1 with count := s1.count + 1 }) :
    ∀ (k : Nat) (s s1 : State2), P s → State2.after k s = some s1 → P s1
  | 0, s, s1, hp, h => by
      simp [State2.after] at h
      rw [← h]; exact hp
  | k + 1, s, s1, hp, h => by
      unfold State2.after at h
      split at h
      · next hc =>
        cases hb : s.body with
        | none => simp [hb] at h
        | some s2 =>
          simp only [hb] at h
          exact State2.after_invariant P hstep k _ s1 (hstep s s2 hc.1 hp hb) h
      · simp at h

/-- When no iteration is needed any more, nothing is saved, the current vector
is exhausted and nothing is pending. -/
theorem State2.work_eq_zero (s : State2) (h : s.work = 0) :
    s.state_stack = [] ∧ s.nv.length ≤ s.i ∧ s.pendingLeaves = [] ∧ s.pendingWf = true := by
  simp only [State2.work] at h
  have h1 : s.nv.drop s.i = [] := cost_eq_zero _ (by omega)
  have h2 : s.state_stack = [] := by
    cases hs : s.state_stack with
    | nil => rfl
    | cons p rest => rw [hs] at h; simp [stackWork] at h
  refine ⟨h2, List.drop_eq_nil_iff.mp h1, ?_, ?_⟩
  · simp [State2.pendingLeaves, h1, h2, leaves, stackLeaves]
  · simp [State2.pendingWf, h1, h2, wellFormed, stackWf]

/-- What is known of the state `flatten2` ends in, for every input. -/
theorem flatten2_run_summary (t : Nested) (flat : Flat) (s : State2)
    (h : flatten2.run t flat = some s) :
    s.flat ++ s.pendingLeaves = flat ++ leaves t ∧
    (s.valid && s.pendingWf) = wellFormed t ∧
    s.work + s.count = cost t ∧
    s.root = t ∧
    s.flat.length ≤ flat.length + s.count ∧
    s.count ≤ 100 ∧
    (s.cond = false ∨ s.count = 100) := by
  have hinv := State2.loop_invariant
    (fun s => s.flat ++ s.pendingLeaves = flat ++ leaves t ∧
      (s.valid && s.pendingWf) = wellFormed t ∧
      s.work + s.count = cost t ∧
      s.root = t ∧
      s.flat.length ≤ flat.length + s.count)
    (fun s s1 _ hp hb => by
      obtain ⟨h1, h2, h3, h4, h5⟩ := hp
      have b1 := State2.body_leaves s s1 hb
      have b2 := State2.body_wf s s1 hb
      have b3 := State2.body_work s s1 hb
      have b4 := State2.body_root s s1 hb
      have b5 := State2.body_flat_length s s1 hb
      have b6 := State2.body_count s s1 hb
      refine ⟨b1.trans h1, b2.trans h2, ?_, b4.trans h4, ?_⟩
      · show s1.work + (s1.count + 1) = cost t
        omega
      · show s1.flat.length ≤ flat.length + (s1.count + 1)
        omega)
    100 (State2.init t flat) s
    (by simp [State2.init, State2.pendingLeaves, State2.pendingWf, State2.work, State2.root,
          leaves, stackLeaves, stackWf, stackWork, stackRoot, wellFormed])
    h
  obtain ⟨h1, h2, h3, h4, h5⟩ := hinv
  exact ⟨h1, h2, h3, h4, h5, State2.loop_count_le 100 _ s rfl h, State2.loop_exit 100 _ s h⟩

/-- Within 100 needed iterations `flatten2` ends with nothing left to do. -/
theorem flatten2_run_complete (t : Nested) (flat : Flat) (s : State2)
    (hc : cost t ≤ 100) (h : flatten2.run t flat = some s) : s.work = 0 := by
  obtain ⟨_, _, h3, _, _, _, h7⟩ := flatten2_run_summary t flat s h
  rcases h7 with h7 | h7
  · by_contra hw
    have := (State2.cond_iff_work s).mpr hw
    rw [h7] at this
    exact Bool.false_ne_true this
  · omega

/-! flatten2: the initial content of the output vector -/

/-- The body does not look at the output vector. -/
theorem State2.body_prepend (flat0 : Flat) (s : State2) :
    (State2.prepend flat0 s).body = (s.body).map (State2.prepend flat0) := by
  unfold State2.body
  simp only [State2.prepend]
  split
  · split <;> simp [*, State2.prepend]
  · split <;> simp [*, State2.prepend]

/-- The loop does not look at the output vector. -/
theorem State2.loop_prepend (flat0 : Flat) : ∀ (n : Nat) (s : State2),
    State2.loop n (State2.prepend flat0 s) = (State2.loop n s).map (State2.prepend flat0)
  | 0, _ => rfl
  | n + 1, s => by
      unfold State2.loop
      rw [State2.body_prepend]
      have hcond : (State2.prepend flat0 s).cond = s.cond := rfl
      rw [hcond]
      by_cases hc : s.cond = true
      · simp only [hc, if_true]
        cases hb : s.body with
        | none => rfl
        | some s1 =>
          simp only [Option.map_some']
          by_cases h100 : s1.count + 1 = 100
          · have h100p : (State2.prepend flat0 s1).count + 1 = 100 := h100
            rw [if_pos h100p, if_pos h100]
            rfl
          · have h100p : ¬ (State2.prepend flat0 s1).count + 1 = 100 := h100
            rw [if_neg h100p, if_neg h100]
            exact State2.loop_prepend flat0 n { s1 with count := s1.count + 1 }
      · simp [hc]

/-- Started with output `flat0`, `flatten2` does what it does from an empty output,
with `flat0` in front of the result. -/
theorem flatten2_prepend (t : Nested) (flat0 : Flat) :
    flatten2 t flat0 = (flatten2 t []).map fun o => { o with flat := flat0 ++ o.flat } := by
  have hinit : State2.init t flat0 = State2.prepend flat0 (State2.init t []) := by
    simp [State2.init, State2.prepend]
  simp only [flatten2, flatten2.run, hinit, State2.loop_prepend, Option.map_map]
  rfl

/-! Vectors of groups only, and vectors of integers only -/

mutual
/-- A group without leaves and malformed elements is well formed and has no leaves. -/
theorem groupsOnlyElem_spec : ∀ (e : Elem), groupsOnlyElem e = true →
    leavesElem e = [] ∧ wellFormedElem e = true
  | .int _, h => by simp [groupsOnlyElem] at h
  | .nested g, h => by
      simp only [groupsOnlyElem] at h
      simpa [leavesElem, wellFormedElem] using groupsOnly_spec g h
  | .other, h => by simp [groupsOnlyElem] at h
/-- A vector without leaves and malformed elements is well formed and has no leaves. -/
theorem groupsOnly_spec : ∀ (xs : List Elem), groupsOnly xs = true →
    leaves xs = [] ∧ wellFormed xs = true
  | [], _ => by simp [leaves, wellFormed]
  | e :: rest, h => by
      simp only [groupsOnly, Bool.and_eq_true] at h
      have h1 := groupsOnlyElem_spec e h.1
      have h2 := groupsOnly_spec rest h.2
      simp [leaves, wellFormed, h1, h2]
end

/-- The leaves of a vector of integers are those integers. -/
theorem leaves_map_int : ∀ (xs : List Int), leaves (xs.map Elem.int) = xs
  | [] => by simp [leaves]
  | x :: rest => by simp [leaves, leavesElem, leaves_map_int rest]

/-- A vector of integers is well formed. -/
theorem wellFormed_map_int : ∀ (xs : List Int), wellFormed (xs.map Elem.int) = true
  | [] => by simp [wellFormed]
  | x :: rest => by simp [wellFormed, wellFormedElem, wellFormed_map_int rest]

/-- On a vector of integers `flatten2` appends one integer in every iteration and
never leaves the root vector. -/
theorem flatten2_run_ints (xs : List Int) (s : State2)
    (h : flatten2.run (xs.map Elem.int) [] = some s) :
    s.nv = xs.map Elem.int ∧ s.state_stack = [] ∧ s.flat.length = s.count := by
  refine State2.loop_invariant
    (fun s => s.nv = xs.map Elem.int ∧ s.state_stack = [] ∧ s.flat.length = s.count)
    (fun s s1 _ hp hb => ?_) 100 (State2.init (xs.map Elem.int) []) s
    (by simp [State2.init]) h
  obtain ⟨h1, h2, h3⟩ := hp
  have hmem : ∀ e, e ∈ s.nv.drop s.i → ∃ x, Elem.int x = e := by
    intro e he
    have := List.mem_of_mem_drop he
    rw [h1] at this
    obtain ⟨x, _, hx⟩ := List.mem_map.mp this
    exact ⟨x, hx⟩
  rcases State2.body_cases s s1 hb with ⟨v, hd, rfl⟩ | ⟨g, hd, _, _, rfl⟩ | ⟨hd, rfl⟩ |
    ⟨hd, nv0, i0, rest, hs, rfl⟩
  · exact ⟨h1, h2, by simp [h3]⟩
  · obtain ⟨x, hx⟩ := hmem (Elem.nested g) (by rw [hd]; simp)
    cases hx
  · obtain ⟨x, hx⟩ := hmem Elem.other (by rw [hd]; simp)
    cases hx
  · rw [h2] at hs
    cases hs

/-! The claims -/

/-- C1 (equivalence of the two flatteners on every well-formed value) fails on the
code: on the well-formed root vector of the 101 leaves `0..100`, `flatten1`
returns all 101 values while `flatten2` stops after 100 loop iterations and
returns only `0..99`. -/
theorem flatten2_ne_flatten1_on_101_leaves :
    wellFormed (ints 101) = true ∧
    flatten1 (ints 101) [] = (true, (List.range 101).map Int.ofNat) ∧
    flatten2 (ints 101) [] = some ⟨true, (List.range 100).map Int.ofNat, ints 101⟩ ∧
    (flatten2 (ints 101) []).map (fun o => (o.valid, o.flat)) ≠ some (flatten1 (ints 101) []) := by
  decide!

/-- C2: for every nested value, malformed elements allowed, `flatten1` started
with an empty output produces exactly the depth-first, left-to-right
concatenation of the integer leaves, a malformed element contributing nothing;
and `[1 [2 3] 4]` yields `[1, 2, 3, 4]` with `valid = true`. -/
theorem flatten1_flat_eq_leaves :
    (∀ t : Nested, (flatten1 t []).2 = leaves t) ∧
    flatten1 [.int 1, .nested [.int 2, .int 3], .int 4] [] = (true, [1, 2, 3, 4]) := by
  refine ⟨fun t => ?_, by decide!⟩
  rw [flatten1_spec]
  exact List.nil_append _

/-- C3: on the sample vector built by `main`, `flatten1` and `flatten2` each return
`valid = true` and `[1, 102, 203, 204, 305, 306, 107, 108, 109, 10, 211, 112, 13]`,
so the comparison `result1 == result2` of the driver is true. -/
theorem sample_scenario :
    flatten1 sample [] =
      (true, [1, 102, 203, 204, 305, 306, 107, 108, 109, 10, 211, 112, 13]) ∧
    flatten2 sample [] =
      some ⟨true, [1, 102, 203, 204, 305, 306, 107, 108, 109, 10, 211, 112, 13], sample⟩ ∧
    (flatten2 sample []).map (fun o => decide ((flatten1 sample []).2 = o.flat)) = some true := by
  decide!

/-- C4 (no artificial bound) fails on the code: on a root vector holding the 250
leaves `0..249`, `flatten2` returns `valid = true` and only the first 100 values
`0..99`; the loop is left by `if (++count == 100) break;`, so the 150 values
`100..249` are missing. -/
theorem flatten2_truncates_250_leaves :
    flatten2 (ints 250) [] = some ⟨true, (List.range 100).map Int.ofNat, ints 250⟩ ∧
    (flatten2 (ints 250) []).map (fun o => o.flat) ≠ some ((List.range 250).map Int.ofNat) ∧
    (flatten2 (ints 250) []).map (fun o => o.flat.length) = some 100 := by
  decide!

/-- C5 (the input is not mutated) fails on the code: called on the vector
`[[0 1 ... 99]]`, `flatten2` descends into the inner group (assigning it to the
caller's vector through `nv`), is stopped by the counter before the matching pop,
and returns with the caller's vector equal to `[0 1 ... 99]`. -/
theorem flatten2_leaves_arg_changed :
    flatten2 [.nested (ints 100)] [] =
      some ⟨true, (List.range 99).map Int.ofNat, ints 100⟩ ∧
    (flatten2 [.nested (ints 100)] []).map (fun o => o.arg) ≠ some [.nested (ints 100)] := by
  decide!

/-- C6 (idempotence of inspection) holds for `flatten1` and fails on the code for
`flatten2`: two calls in succession on the vector variable holding
`[[0 1 ... 99]]` return `0..98` the first time and `0..99` the second time,
because the first call leaves the variable holding `[0 1 ... 99]`. -/
theorem flatten2_twice_differs :
    (∀ t : Nested, (flatten1.twice t).1 = (flatten1.twice t).2) ∧
    flatten2.twice [.nested (ints 100)] =
      some (⟨true, (List.range 99).map Int.ofNat, ints 100⟩,
            ⟨true, (List.range 100).map Int.ofNat, ints 100⟩) ∧
    (flatten2.twice [.nested (ints 100)]).map (fun p => decide (p.1.flat = p.2.flat)) =
      some false := by
  refine ⟨fun _ => rfl, ?_, ?_⟩ <;> decide!

/-- C7: for every nested value, `flatten1` returns `valid = true` if and only if
no malformed element occurs anywhere in it, at any depth; and a nested group for
which the recursive call reports false makes the enclosing call report false,
wherever the group stands. -/
theorem flatten1_valid_iff_wellFormed :
    (∀ t : Nested, (flatten1 t []).1 = true ↔ wellFormed t = true) ∧
    (∀ (pre post g : Nested), (flatten1 g []).1 = false →
      (flatten1 (pre ++ Elem.nested g :: post) []).1 = false) := by
  refine ⟨fun t => by rw [flatten1_spec], fun pre post g hg => ?_⟩
  rw [flatten1_spec] at hg
  rw [flatten1_spec]
  simp only at hg ⊢
  induction pre with
  | nil => simp [wellFormed, wellFormedElem, hg]
  | cons e rest ih =>
      show (wellFormedElem e && wellFormed (rest ++ Elem.nested g :: post)) = false
      rw [ih, Bool.and_false]

/-- C8: for every well-formed nested value, of any size and depth, `flatten1`
returns `valid = true` and `flatten2` returns, with `valid = true`. -/
theorem wellFormed_valid (t : Nested) (hw : wellFormed t = true) :
    (flatten1 t []).1 = true ∧ ∃ o, flatten2 t [] = some o ∧ o.valid = true := by
  refine ⟨by rw [flatten1_spec]; exact hw, ?_⟩
  obtain ⟨s, hs⟩ := State2.loop_isSome 100 (State2.init t []) (by decide) rfl
  have hv : s.valid = true :=
    State2.loop_valid 100 (State2.init t []) s ⟨hw, by simp [State2.init]⟩ rfl hs
  exact ⟨{ valid := s.valid, flat := s.flat, arg := s.nv },
    by simp [flatten2, flatten2.run, hs], hv⟩

/-- Witness of C8 at the well-formed vector of the 250 leaves `0..249`. -/
theorem wellFormed_valid_witness :
    wellFormed (ints 250) = true ∧
    ((flatten1 (ints 250) []).1 = true ∧
      ∃ o, flatten2 (ints 250) [] = some o ∧ o.valid = true) :=
  ⟨by decide!, wellFormed_valid (ints 250) (by decide!)⟩

/-- C9: for every integer `v`, the single leaf `v` wrapped in 5 levels of groups
flattens to `[v]` with `valid = true`, under `flatten1` and under `flatten2`. -/
theorem deep5_flattens (v : Int) :
    flatten1 (deep5 v) [] = (true, [v]) ∧
    flatten2 (deep5 v) [] = some ⟨true, [v], deep5 v⟩ :=
  ⟨rfl, rfl⟩

/-- C10: `[[] 1 [[]] 2]` flattens to `[1, 2]` with `valid = true` under `flatten1`
and under `flatten2`; the iterative loop descends into the first empty group
(iteration 1) and pops back to the root at index 1 with nothing emitted
(iteration 2), and passes `[[]]` by two descents and two pops (iterations 4-7),
resuming the root at index 3 with only `1` emitted; after iteration 8 the loop
ends. -/
theorem emptyGroups_transparent :
    flatten1 emptyGroups [] = (true, [1, 2]) ∧
    flatten2 emptyGroups [] = some ⟨true, [1, 2], emptyGroups⟩ ∧
    State2.after 1 (State2.init emptyGroups []) =
      some ⟨[], 0, [(emptyGroups, 0)], [], true, 1⟩ ∧
    State2.after 2 (State2.init emptyGroups []) =
      some ⟨emptyGroups, 1, [], [], true, 2⟩ ∧
    State2.after 5 (State2.init emptyGroups []) =
      some ⟨[], 0, [([.nested []], 0), (emptyGroups, 2)], [1], true, 5⟩ ∧
    State2.after 6 (State2.init emptyGroups []) =
      some ⟨[.nested []], 1, [(emptyGroups, 2)], [1], true, 6⟩ ∧
    State2.after 7 (State2.init emptyGroups []) =
      some ⟨emptyGroups, 3, [], [1], true, 7⟩ ∧
    State2.after 8 (State2.init emptyGroups []) =
      some ⟨emptyGroups, 4, [], [1, 2], true, 8⟩ ∧
    State2.after 9 (State2.init emptyGroups []) = none := by
  decide!

/-- C11: for every nested value that holds no integer leaf and no malformed
element at any depth, `flatten1` and `flatten2` started with an empty output
return the empty sequence and `valid = true`. -/
theorem groupsOnly_flattens_to_nil (t : Nested) (hg : groupsOnly t = true) :
    flatten1 t [] = (true, []) ∧
    ∃ o, flatten2 t [] = some o ∧ o.flat = [] ∧ o.valid = true := by
  obtain ⟨hl, hw⟩ := groupsOnly_spec t hg
  refine ⟨by rw [flatten1_spec, hl, hw]; rfl, ?_⟩
  obtain ⟨s, hs⟩ := State2.loop_isSome 100 (State2.init t []) (by decide) rfl
  obtain ⟨h1, _⟩ := flatten2_run_summary t [] s hs
  have hv : s.valid = true :=
    State2.loop_valid 100 (State2.init t []) s ⟨hw, by simp [State2.init]⟩ rfl hs
  rw [hl] at h1
  have hflat : s.flat = [] := (List.append_eq_nil.mp h1).1
  exact ⟨{ valid := s.valid, flat := s.flat, arg := s.nv },
    by simp [flatten2, flatten2.run, hs], hflat, hv⟩

/-- Witness of C11 at `[[] [[] [[]]]]`. -/
theorem groupsOnly_flattens_to_nil_witness :
    groupsOnly [.nested [], .nested [.nested [], .nested [.nested []]]] = true ∧
    (flatten1 [.nested [], .nested [.nested [], .nested [.nested []]]] [] = (true, []) ∧
      ∃ o, flatten2 [.nested [], .nested [.nested [], .nested [.nested []]]] [] = some o ∧
        o.flat = [] ∧ o.valid = true) :=
  ⟨by decide!, groupsOnly_flattens_to_nil _ (by decide!)⟩

/-- C12: for every nested value `t` and every initial content `flat0` of the output
vector, `flatten1` and `flatten2` leave `flat0` in front of the output, followed
by what the same flattener produces for `t` from an empty output (with the same
flag, and for `flatten2` the same final content of the caller's vector). -/
theorem flat0_is_kept (t : Nested) (flat0 : Flat) :
    flatten1 t flat0 = ((flatten1 t []).1, flat0 ++ (flatten1 t []).2) ∧
    ∃ o o0, flatten2 t flat0 = some o ∧ flatten2 t [] = some o0 ∧
      o.flat = flat0 ++ o0.flat ∧ flat0 <+: o.flat ∧ o.valid = o0.valid ∧ o.arg = o0.arg := by
  refine ⟨by simp [flatten1_spec], ?_⟩
  obtain ⟨o0, h0⟩ := flatten2_isSome t []
  refine ⟨{ o0 with flat := flat0 ++ o0.flat }, o0, ?_, h0, rfl, List.prefix_append _ _, rfl, rfl⟩
  rw [flatten2_prepend, h0]
  rfl

/-- C13: for every nested value, malformed elements allowed, with leaves +
malformed elements + 2 * nested groups at most 100, `flatten2` returns the same
flat sequence and the same validity flag as `flatten1`. -/
theorem flatten2_eq_flatten1_of_cost_le (t : Nested)
    (hc : countLeaves t + countMalformed t + 2 * countGroups t ≤ 100) :
    ∃ o, flatten2 t [] = some o ∧ (o.valid, o.flat) = flatten1 t [] := by
  obtain ⟨s, hs⟩ := State2.loop_isSome 100 (State2.init t []) (by decide) rfl
  obtain ⟨h1, h2, _⟩ := flatten2_run_summary t [] s hs
  obtain ⟨_, _, h5, h6⟩ := State2.work_eq_zero s (flatten2_run_complete t [] s hc hs)
  rw [h5] at h1
  rw [h6] at h2
  refine ⟨{ valid := s.valid, flat := s.flat, arg := s.nv },
    by simp [flatten2, flatten2.run, hs], ?_⟩
  rw [flatten1_spec]
  simp only [List.append_nil, List.nil_append, Bool.and_true] at h1 h2
  rw [h1, h2]
  rfl

/-- Witness of C13 at the 100 top-level leaves `0..99`, where the bound is met
with equality. -/
theorem flatten2_eq_flatten1_of_cost_le_witness :
    countLeaves (ints 100) + countMalformed (ints 100) + 2 * countGroups (ints 100) ≤ 100 ∧
    ∃ o, flatten2 (ints 100) [] = some o ∧ (o.valid, o.flat) = flatten1 (ints 100) [] :=
  ⟨by decide!, flatten2_eq_flatten1_of_cost_le (ints 100) (by decide!)⟩

/-- C14: for every nested value, of any size and with malformed elements allowed,
the sequence `flatten2` returns from an empty output is a prefix of the sequence
`flatten1` returns. -/
theorem flatten2_truncates_flatten1 (t : Nested) :
    ∃ o, flatten2 t [] = some o ∧ o.flat <+: (flatten1 t []).2 := by
  obtain ⟨s, hs⟩ := State2.loop_isSome 100 (State2.init t []) (by decide) rfl
  obtain ⟨h1, _⟩ := flatten2_run_summary t [] s hs
  refine ⟨{ valid := s.valid, flat := s.flat, arg := s.nv },
    by simp [flatten2, flatten2.run, hs], ?_⟩
  rw [flatten1_spec]
  exact ⟨s.pendingLeaves, h1⟩

/-- C15: on a root vector holding the integers `xs` as top-level leaves `flatten2`
returns exactly the first `min (length xs) 100` of them; and for any input the
loop body runs at most 100 times and at most 100 integers are appended. -/
theorem flatten2_step_cap :
    (∀ xs : List Int, flatten2 (xs.map Elem.int) [] =
      some ⟨true, xs.take (min xs.length 100), xs.map Elem.int⟩) ∧
    (∀ (t : Nested) (flat0 : Flat), ∃ s, flatten2.run t flat0 = some s ∧
      s.count ≤ 100 ∧ s.flat.length ≤ flat0.length + 100) := by
  constructor
  · intro xs
    obtain ⟨s, hs⟩ := State2.loop_isSome 100 (State2.init (xs.map Elem.int) []) (by decide) rfl
    obtain ⟨h1, _, h3, _, _, h6, h7⟩ := flatten2_run_summary _ [] s hs
    obtain ⟨g1, g2, g3⟩ := flatten2_run_ints xs s hs
    have hv : s.valid = true :=
      State2.loop_valid 100 (State2.init (xs.map Elem.int) []) s
        ⟨wellFormed_map_int xs, by simp [State2.init]⟩ rfl hs
    rw [leaves_map_int, List.nil_append] at h1
    have hpre : s.flat <+: xs := ⟨_, h1⟩
    have hlen := hpre.length_le
    have hflat : s.flat = xs.take (min xs.length 100) := by
      rcases h7 with h7 | h7
      · have hw : s.work = 0 := by
          by_contra hw
          have := (State2.cond_iff_work s).mpr hw
          rw [h7] at this
          exact Bool.false_ne_true this
        have h5 := (State2.work_eq_zero s hw).2.2.1
        rw [h5, List.append_nil] at h1
        have hle : xs.length ≤ 100 := by rw [← h1, g3]; exact h6
        rw [Nat.min_eq_left hle, List.take_length]
        exact h1
      · have hl : s.flat.length = 100 := by rw [g3, h7]
        have hmin : min xs.length 100 = 100 := Nat.min_eq_right (by omega)
        rw [hmin, ← hl]
        exact List.prefix_iff_eq_take.mp hpre
    simp only [flatten2, flatten2.run, hs, Option.map_some', hv, hflat, g1]
  · intro t flat0
    obtain ⟨s, hs⟩ := State2.loop_isSome 100 (State2.init t flat0) (by decide) rfl
    obtain ⟨_, _, _, _, h5, h6, _⟩ := flatten2_run_summary t flat0 s hs
    exact ⟨s, hs, h6, by omega⟩

/-- C16: for every nested value with leaves + malformed elements + 2 * nested
groups at most 100, `flatten2` returns with the saved-state stack empty, the
current vector exhausted and the caller's vector equal to its value before the
call. -/
theorem flatten2_restores_arg (t : Nested)
    (hc : countLeaves t + countMalformed t + 2 * countGroups t ≤ 100) :
    ∃ s, flatten2.run t [] = some s ∧ s.state_stack = [] ∧ ¬ s.i < s.nv.length ∧ s.nv = t ∧
      (flatten2 t []).map (fun o => o.arg) = some t := by
  obtain ⟨s, hs⟩ := State2.loop_isSome 100 (State2.init t []) (by decide) rfl
  obtain ⟨_, _, _, h4, _⟩ := flatten2_run_summary t [] s hs
  obtain ⟨h5, h6, _, _⟩ := State2.work_eq_zero s (flatten2_run_complete t [] s hc hs)
  have hnv : s.nv = t := by
    rw [← h4]
    simp [State2.root, h5, stackRoot]
  exact ⟨s, hs, h5, Nat.not_lt.mpr h6, hnv, by simp [flatten2, flatten2.run, hs, hnv]⟩

/-- Witness of C16 at `[[0 1 ... 97]]`, where the descent, the 98 leaves and the
pop take exactly 100 iterations. -/
theorem flatten2_restores_arg_witness :
    countLeaves [.nested (ints 98)] + countMalformed [.nested (ints 98)] +
      2 * countGroups [.nested (ints 98)] ≤ 100 ∧
    ∃ s, flatten2.run [.nested (ints 98)] [] = some s ∧ s.state_stack = [] ∧
      ¬ s.i < s.nv.length ∧ s.nv = [.nested (ints 98)] ∧
      (flatten2 [.nested (ints 98)] []).map (fun o => o.arg) = some [.nested (ints 98)] :=
  ⟨by decide!, flatten2_restores_arg [.nested (ints 98)] (by decide!)⟩

/-- C17: in every loop-head state `s` that `flatten2` reaches, on any input: if the
loop goes on, the body does not fail (no `at()` out of range, no `top()` on an
empty stack); the pop branch is taken only with a non-empty stack; and every
saved state `(g, j)` has `j < size(g)` with the `j`-th element of `g` a nested
vector. -/
theorem flatten2_safe (t : Nested) (flat : Flat) (k : Nat) (s : State2)
    (h : State2.after k (State2.init t flat) = some s) :
    (s.cond = true → ∃ s1, s.body = some s1) ∧
    (s.cond = true → ¬ s.i < s.nv.length → s.state_stack ≠ []) ∧
    (∀ p ∈ s.state_stack, p.2 < p.1.length ∧ ∃ g, p.1[p.2]? = some (Elem.nested g)) := by
  refine ⟨State2.body_isSome s, ?_, ?_⟩
  · intro hc hi hs
    simp [State2.cond, hi, hs] at hc
  · exact State2.after_invariant State2.StackOk
      (fun s s1 _ hp hb => State2.body_stackOk s s1 hp hb) k (State2.init t flat) s
      (by intro p hp; simp [State2.init] at hp) h

/-- Witness of C17 at `[[] 1 [[]] 2]` after 5 iterations, inside the innermost
empty group with two saved states. -/
theorem flatten2_safe_witness :
    State2.after 5 (State2.init emptyGroups []) =
      some ⟨[], 0, [([.nested []], 0), (emptyGroups, 2)], [1], true, 5⟩ ∧
    ((State2.cond ⟨[], 0, [([.nested []], 0), (emptyGroups, 2)], [1], true, 5⟩ = true →
      ∃ s1, State2.body ⟨[], 0, [([.nested []], 0), (emptyGroups, 2)], [1], true, 5⟩ =
        some s1) ∧
    (State2.cond ⟨[], 0, [([.nested []], 0), (emptyGroups, 2)], [1], true, 5⟩ = true →
      ¬ (0 : Nat) < ([] : Nested).length →
      [(([.nested []] : Nested), 0), (emptyGroups, 2)] ≠ []) ∧
    (∀ p ∈ [(([.nested []] : Nested), 0), (emptyGroups, 2)],
      p.2 < p.1.length ∧ ∃ g, p.1[p.2]? = some (Elem.nested g))) :=
  ⟨by decide!, flatten2_safe emptyGroups [] 5 _ (by decide!)⟩

end Flatten
